import Mathlib

/-!
# voice-to-do: a shallow embedding of `script.js`

The page keeps its whole state in the DOM (two `<ul>` elements) and in two
`localStorage` entries.  This file embeds

* the host built-ins the script calls (`String.prototype.trim`, the `\s`
  character class, `JSON.stringify` on arrays of `{text, time}` objects,
  `JSON.parse`, `padStart`),
* the script's functions (`loadTasks`, `saveTasks`, `createItemDOM`, the click
  handler and its one-shot `animationend` listeners, `createItem`,
  `clearHistory`, the `setInterval` callback, `recognition.onresult`),

and proves properties of them.

Modelling choices:

* JavaScript strings are Lean strings, i.e. well-formed sequences of Unicode
  scalar values.
* An `<li>` is the record `Li` of what the script reads back from it; the two
  lists are Lean lists of such records, and an item is addressed by its list
  and its position in it.
* What the host decides with floats or Unicode tables is a parameter (`Host`).
* Every script function is a function on the page `State`.  Calls on the
  speech and audio devices are appended to a trace, each tagged with the item
  it was made for.
* The browser events are functions too: `click`, `animationend` (the end of
  the `move-down` or `move-up` transition of an item), `tick` (one run of the
  `setInterval` callback at a given clock reading).
-/

namespace VoiceToDo

/-! ## Host strings -/

/-- ECMAScript `WhiteSpace` or `LineTerminator`: the characters removed by
`String.prototype.trim` and matched by `\s` in a regular expression. -/
def isJsSpace (c : Char) : Bool :=
  let n := c.toNat
  n = 0x09 || n = 0x0A || n = 0x0B || n = 0x0C || n = 0x0D || n = 0x20 ||
  n = 0xA0 || n = 0x1680 || (0x2000 ≤ n && n ≤ 0x200A) || n = 0x2028 ||
  n = 0x2029 || n = 0x202F || n = 0x205F || n = 0x3000 || n = 0xFEFF

/-- The method `String.prototype.trim`, on the character list of a string. -/
def trimChars (cs : List Char) : List Char :=
  ((cs.dropWhile isJsSpace).reverse.dropWhile isJsSpace).reverse

/-- The call `s.trim()`. -/
def jsTrim (s : String) : String := ⟨trimChars s.data⟩

/-- The call `s.padStart(2, '0')`. -/
def padStart2 (s : String) : String :=
  ⟨List.replicate (2 - s.data.length) '0' ++ s.data⟩

/-! ## JSON values and `JSON.parse` -/

/-- The values `JSON.parse` can return.  A number keeps the literal it was
read from: its numeric value is a float and is left to the host. -/
inductive Json where
  | null : Json
  | bool (b : Bool) : Json
  | num (literal : String) : Json
  | str (s : String) : Json
  | arr (items : List Json) : Json
  | obj (members : List (String × Json)) : Json

/-- A JavaScript argument or property value: `none` is `undefined`. -/
abbrev JsVal := Option Json

namespace JSON

/-- JSON insignificant whitespace: space, tab, line feed, carriage return. -/
def isWs (c : Char) : Bool :=
  c = ' ' || c = '\t' || c = '\n' || c = '\r'

/-- Drop leading JSON whitespace. -/
def skipWs : List Char → List Char
  | [] => []
  | c :: cs => if isWs c then skipWs cs else c :: cs

/-- Value of a hexadecimal digit. -/
def hexVal (c : Char) : Option Nat :=
  let n := c.toNat
  if 48 ≤ n ∧ n ≤ 57 then some (n - 48)
  else if 97 ≤ n ∧ n ≤ 102 then some (n - 87)
  else if 65 ≤ n ∧ n ≤ 70 then some (n - 55)
  else none

/-- The four hexadecimal digits of a `\uXXXX` escape. -/
def hex4 (a b c d : Char) : Option Nat :=
  match hexVal a, hexVal b, hexVal c, hexVal d with
  | some x, some y, some z, some w => some (((x * 16 + y) * 16 + z) * 16 + w)
  | _, _, _, _ => none

/-- The character denoted by a `\uXXXX` escape with value `n`, where `low` is
the value of a directly following `\uXXXX` escape, if there is one.  Returns
the character and whether the following escape was used up (a surrogate pair).
A surrogate that has no partner denotes a code unit outside the modelled
strings and is read as U+FFFD. -/
def unicodeEscape (n : Nat) (low : Option Nat) : Char × Bool :=
  if 0xD800 ≤ n ∧ n ≤ 0xDBFF then
    match low with
    | some m =>
      if 0xDC00 ≤ m ∧ m ≤ 0xDFFF then
        (Char.ofNat (0x10000 + (n - 0xD800) * 0x400 + (m - 0xDC00)), true)
      else (Char.ofNat 0xFFFD, false)
    | none => (Char.ofNat 0xFFFD, false)
  else if 0xDC00 ≤ n ∧ n ≤ 0xDFFF then (Char.ofNat 0xFFFD, false)
  else (Char.ofNat n, false)

/-- The character of a one-letter escape `\c`. -/
def simpleEscape (c : Char) : Option Char :=
  if c = '"' then some '"'
  else if c = '\\' then some '\\'
  else if c = '/' then some '/'
  else if c = 'b' then some (Char.ofNat 8)
  else if c = 'f' then some (Char.ofNat 12)
  else if c = 'n' then some '\n'
  else if c = 'r' then some '\r'
  else if c = 't' then some '\t'
  else none

/-- Value of the `\uXXXX` escape at the head of the input, if one is there. -/
def peekEscape : List Char → Option Nat
  | b :: u :: a1 :: a2 :: a3 :: a4 :: _ =>
    if b = '\\' ∧ u = 'u' then hex4 a1 a2 a3 a4 else none
  | _ => none

/-- Read what follows a backslash inside a string: the character the escape
denotes and the input after the escape. -/
def readEscape : List Char → Option (Char × List Char)
  | [] => none
  | e :: cs =>
    if e = 'u' then
      match cs with
      | a1 :: a2 :: a3 :: a4 :: cs2 =>
        match hex4 a1 a2 a3 a4 with
        | none => none
        | some n =>
          let r := unicodeEscape n (peekEscape cs2)
          some (r.1, if r.2 then cs2.drop 6 else cs2)
      | _ => none
    else
      match simpleEscape e with
      | none => none
      | some x => some (x, cs)

/-- Read one step of a string body: `some (none, rest)` at the closing quote,
`some (some c, rest)` for a character or an escape, `none` when the input is
malformed (it ends, a raw control character, a bad escape). -/
def readChar : List Char → Option (Option Char × List Char)
  | [] => none
  | c :: cs =>
    if c = '"' then some (none, cs)
    else if c = '\\' then (readEscape cs).map (fun p => (some p.1, p.2))
    else if c.toNat < 0x20 then none
    else some (some c, cs)

/-- Read a JSON string after its opening quote; returns the characters and
the input after the closing quote.  Every step uses up input, so the length
of the input is fuel enough. -/
def parseStrFuel : Nat → List Char → Option (List Char × List Char)
  | 0, _ => none
  | fuel + 1, cs =>
    match readChar cs with
    | none => none
    | some (none, rest) => some ([], rest)
    | some (some c, rest) => (parseStrFuel fuel rest).map (fun p => (c :: p.1, p.2))

/-- Read a JSON string after its opening quote. -/
def parseStr (cs : List Char) : Option (List Char × List Char) :=
  parseStrFuel cs.length cs

/-- Split off a maximal run of decimal digits. -/
def spanDigits (cs : List Char) : List Char × List Char :=
  cs.span (fun c => 48 ≤ c.toNat && c.toNat ≤ 57)

/-- Read the integer part of a JSON number: `0` or a run starting
with `1`-`9`. -/
def parseInt (cs : List Char) : Option (List Char × List Char) :=
  match cs with
  | [] => none
  | c :: rest =>
    if c = '0' then some (['0'], rest)
    else
      let p := spanDigits cs
      if p.1 = [] then none else some p

/-- Read an optional fraction `.digits`. -/
def parseFrac (cs : List Char) : Option (List Char × List Char) :=
  match cs with
  | c :: rest =>
    if c = '.' then
      let p := spanDigits rest
      if p.1 = [] then none else some ('.' :: p.1, p.2)
    else some ([], cs)
  | [] => some ([], [])

/-- Read an optional exponent `e[+-]digits`. -/
def parseExp (cs : List Char) : Option (List Char × List Char) :=
  match cs with
  | c :: rest =>
    if c = 'e' ∨ c = 'E' then
      let sign : List Char × List Char :=
        match rest with
        | s :: rest1 => if s = '+' ∨ s = '-' then ([s], rest1) else ([], rest)
        | [] => ([], [])
      let p := spanDigits sign.2
      if p.1 = [] then none else some (c :: sign.1 ++ p.1, p.2)
    else some ([], cs)
  | [] => some ([], [])

/-- Read a JSON number literal. -/
def parseNumber (cs : List Char) : Option (List Char × List Char) :=
  let neg : List Char × List Char :=
    match cs with
    | c :: rest => if c = '-' then (['-'], rest) else ([], cs)
    | [] => ([], [])
  match parseInt neg.2 with
  | none => none
  | some (i, r1) =>
    match parseFrac r1 with
    | none => none
    | some (f, r2) =>
      match parseExp r2 with
      | none => none
      | some (e, r3) => some (neg.1 ++ i ++ f ++ e, r3)

/-- Read the keyword `kw` at the head of the input. -/
def parseWord (kw : List Char) (cs : List Char) : Option (List Char) :=
  if kw.isPrefixOf cs then some (cs.drop kw.length) else none

mutual

/-- Read one JSON value; `fuel` bounds the nesting and the number of
elements. -/
def parseValue : Nat → List Char → Option (Json × List Char)
  | 0, _ => none
  | fuel + 1, cs =>
    match skipWs cs with
    | [] => none
    | c :: r =>
      if c = '"' then
        (parseStr r).map (fun p => (Json.str ⟨p.1⟩, p.2))
      else if c = '[' then
        match skipWs r with
        | d :: r1 => if d = ']' then some (Json.arr [], r1) else parseElems fuel r []
        | [] => none
      else if c = '{' then
        match skipWs r with
        | d :: r1 => if d = '}' then some (Json.obj [], r1) else parseMembers fuel r []
        | [] => none
      else if c = 't' then (parseWord ['r', 'u', 'e'] r).map (fun x => (Json.bool true, x))
      else if c = 'f' then
        (parseWord ['a', 'l', 's', 'e'] r).map (fun x => (Json.bool false, x))
      else if c = 'n' then (parseWord ['u', 'l', 'l'] r).map (fun x => (Json.null, x))
      else (parseNumber (c :: r)).map (fun p => (Json.num ⟨p.1⟩, p.2))

/-- Read the elements of a non-empty array, up to and including `]`. -/
def parseElems : Nat → List Char → List Json → Option (Json × List Char)
  | 0, _, _ => none
  | fuel + 1, cs, acc =>
    match parseValue fuel cs with
    | none => none
    | some (v, r) =>
      match skipWs r with
      | d :: r1 =>
        if d = ',' then parseElems fuel r1 (acc ++ [v])
        else if d = ']' then some (Json.arr (acc ++ [v]), r1)
        else none
      | [] => none

/-- Read the members of a non-empty object, up to and including the closing
brace. -/
def parseMembers : Nat → List Char → List (String × Json) → Option (Json × List Char)
  | 0, _, _ => none
  | fuel + 1, cs, acc =>
    match skipWs cs with
    | q :: r =>
      if q = '"' then
        match parseStr r with
        | none => none
        | some (k, r1) =>
          match skipWs r1 with
          | col :: r2 =>
            if col = ':' then
              match parseValue fuel r2 with
              | none => none
              | some (v, r3) =>
                match skipWs r3 with
                | d :: r4 =>
                  if d = ',' then parseMembers fuel r4 (acc ++ [(⟨k⟩, v)])
                  else if d = '}' then some (Json.obj (acc ++ [(⟨k⟩, v)]), r4)
                  else none
                | [] => none
            else none
          | [] => none
      else none
    | [] => none

end

/-- The call `JSON.parse(text)`: `none` stands for the thrown error of a text that is
not valid JSON. -/
def parse (text : String) : Option Json :=
  match parseValue (text.data.length + 1) text.data with
  | none => none
  | some (v, rest) => if skipWs rest = [] then some v else none

/-- Lower-case hexadecimal digit of `n < 16`. -/
def hexDigit (n : Nat) : Char :=
  if n < 10 then Char.ofNat (48 + n) else Char.ofNat (87 + n)

/-- The text `QuoteJSONString` writes for one character: the two-letter
escapes, `\u00xx` for the other control characters, the character itself
otherwise. -/
def quoteChar (c : Char) : List Char :=
  if c = '"' then ['\\', '"']
  else if c = '\\' then ['\\', '\\']
  else if c.toNat = 8 then ['\\', 'b']
  else if c.toNat = 12 then ['\\', 'f']
  else if c = '\n' then ['\\', 'n']
  else if c = '\r' then ['\\', 'r']
  else if c = '\t' then ['\\', 't']
  else if c.toNat < 0x20 then
    ['\\', 'u', '0', '0', hexDigit (c.toNat / 16), hexDigit (c.toNat % 16)]
  else [c]

/-- The characters between the quotes of `JSON.stringify(s)`. -/
def quoteBody : List Char → List Char
  | [] => []
  | c :: cs => quoteChar c ++ quoteBody cs

/-- The text `JSON.stringify(s)` for a string `s`. -/
def quote (s : String) : List Char :=
  '"' :: (quoteBody s.data ++ ['"'])

end JSON

/-! ## The stored form -/

/-- One record of the stored arrays: the object literal
`{ text: ..., time: ... }` built in `saveTasks`. -/
structure Task where
  text : String
  time : String
  deriving DecidableEq, Repr

namespace JSON

/-- The text `JSON.stringify` writes for one `{text, time}` object. -/
def stringifyTask (t : Task) : List Char :=
  "\x7b\"text\":".data ++ quote t.text ++ ",\"time\":".data ++ quote t.time ++ ['}']

/-- The elements of a stringified array after the first, each led by a
comma. -/
def stringifyRest : List Task → List Char
  | [] => []
  | t :: ts => ',' :: (stringifyTask t ++ stringifyRest ts)

/-- The text `JSON.stringify(tasks)` for an array of `{text, time}` objects. -/
def stringifyTasks : List Task → String
  | [] => ⟨['[', ']']⟩
  | t :: ts => ⟨'[' :: (stringifyTask t ++ stringifyRest ts ++ [']'])⟩

end JSON

/-- The JSON value of one stored record. -/
def Task.toJson (t : Task) : Json :=
  Json.obj [("text", Json.str t.text), ("time", Json.str t.time)]

/-! ## Host conversions -/

/-- What the script needs from the host beyond the functions embedded above.
These are left as parameters: Unicode case mapping, and the value and the
printed form of JSON numbers (floats). -/
structure Host where
  /-- The method `String.prototype.toLowerCase`. -/
  toLowerCase : String → String
  /-- Whether a JSON number literal denotes `0` or `-0`. -/
  numberIsZero : String → Bool
  /-- The conversion `ToString` of a number, an array or an object. -/
  toStringOther : Json → String

/-- JavaScript truthiness (`ToBoolean`). -/
def truthy (H : Host) : JsVal → Bool
  | none => false
  | some Json.null => false
  | some (Json.bool b) => b
  | some (Json.num l) => !H.numberIsZero l
  | some (Json.str s) => decide (s ≠ "")
  | some (Json.arr _) => true
  | some (Json.obj _) => true

/-- The conversion `ToString` of a value. -/
def toStr (H : Host) : JsVal → String
  | none => "undefined"
  | some Json.null => "null"
  | some (Json.bool true) => "true"
  | some (Json.bool false) => "false"
  | some (Json.str s) => s
  | some v => H.toStringOther v

/-- Conversion of a value assigned to `textContent`, whose type is a nullable
string: `null` and `undefined` give the empty text. -/
def toTextContent (H : Host) : JsVal → String
  | none => ""
  | some Json.null => ""
  | v => toStr H v

/-- The value of the last member named `key`, `undefined` if there is
none. -/
def lookupMember (key : String) : List (String × Json) → JsVal
  | [] => none
  | (k, v) :: ms =>
    match lookupMember key ms with
    | some w => some w
    | none => if k = key then some v else none

/-- Property read `task.key` on an element of a parsed array, for the keys
`text` and `time`: `none` is the error raised on `null`; values that are not
objects have no such property. -/
def getProp (task : Json) (key : String) : Option JsVal :=
  match task with
  | Json.null => none
  | Json.obj ms => some (lookupMember key ms)
  | _ => some none

/-! ## The page state -/

/-- The two closures the click handler registers for `animationend`. -/
inductive Listener where
  /-- Lines 78-82: move the item to the completed list and save. -/
  | toHistory
  /-- Lines 86-90: move the item back to the active list and save. -/
  | toActive
  deriving DecidableEq, Repr

/-- One `<li>` built by `createItemDOM`. -/
structure Li where
  /-- The value of `li.querySelector('.text-span').textContent`. -/
  text : String
  /-- The value of `li.dataset.alarmTime`; `none` when the attribute was never set. -/
  alarmTime : Option String
  /-- Whether `li.classList.contains('ringing')`. -/
  ringing : Bool
  /-- Whether `li.classList.contains('move-down')`. -/
  moveDown : Bool
  /-- Whether `li.classList.contains('move-up')`. -/
  moveUp : Bool
  /-- The pending one-shot `animationend` listeners, oldest first. -/
  listeners : List Listener
  deriving DecidableEq, Repr

/-- The two lists of the page. -/
inductive ListId where
  /-- The element `#todo-list`, the Active list. -/
  | todoList
  /-- The element `#completed-list`, the Completed list. -/
  | completedList
  deriving DecidableEq, Repr

/-- The calls the script makes on the speech and audio devices. -/
inductive Effect where
  /-- The call `speak(msg)`. -/
  | speak (msg : String)
  /-- The call `alarmSound.play()`. -/
  | alarmPlay
  /-- The call `alarmSound.pause()`. -/
  | alarmPause
  deriving DecidableEq, Repr

/-- One entry of the trace of device calls.  `source` records the item on
whose behalf the call was made, by its list and position at that moment; it
is `none` for the confirmation spoken by `createItem`. -/
structure Emitted where
  source : Option (ListId × Nat)
  effect : Effect
  deriving DecidableEq, Repr

/-- The page: the children of the two lists, the two `localStorage` entries
(`none` when `getItem` returns `null`), and the trace of device calls. -/
structure State where
  todoList : List Li
  completedList : List Li
  activeTasks : Option String
  completedTasks : Option String
  log : List Emitted
  deriving DecidableEq, Repr

/-- The errors a run of `loadTasks` can raise. -/
inductive JsError where
  /-- The text was rejected by `JSON.parse`. -/
  | parseError
  /-- A value was used as something it is not (`forEach` of a value that is
  not an array; a property of `null`). -/
  | typeError
  deriving DecidableEq, Repr

/-- The children of one of the lists. -/
def State.items (s : State) : ListId → List Li
  | ListId.todoList => s.todoList
  | ListId.completedList => s.completedList

/-- Replace the children of one of the lists. -/
def State.setItems (s : State) (p : ListId) (l : List Li) : State :=
  match p with
  | ListId.todoList => { s with todoList := l }
  | ListId.completedList => { s with completedList := l }

/-- The expression `li.dataset.alarmTime || ""`. -/
def Li.time (li : Li) : String :=
  match li.alarmTime with
  | some t => if t ≠ "" then t else ""
  | none => ""

/-- The record `saveTasks` pushes for an item. -/
def Li.toTask (li : Li) : Task := { text := li.text, time := li.time }

/-! ## The script -/

/-- Lines 25-47. -/
def saveTasks (s : State) : State :=
  let activeTasks := s.todoList.map Li.toTask
  let completedTasks := s.completedList.map Li.toTask
  { s with
    activeTasks := some (JSON.stringifyTasks activeTasks)
    completedTasks := some (JSON.stringifyTasks completedTasks) }

/-- Lines 50-97. -/
def createItemDOM (H : Host) (text timeStr : JsVal) (isCompleted : Bool) (s : State) : State :=
  let li : Li :=
    { text := toTextContent H text
      alarmTime := if truthy H timeStr then some (toStr H timeStr) else none
      ringing := false
      moveDown := false
      moveUp := false
      listeners := [] }
  if isCompleted then { s with completedList := s.completedList ++ [li] }
  else { s with todoList := s.todoList ++ [li] }

/-- The call `speak(msg)` of lines 188-191, made for `source`. -/
def speak (source : Option (ListId × Nat)) (msg : String) (s : State) : State :=
  { s with log := s.log ++ [{ source := source, effect := Effect.speak msg }] }

/-- Lines 100-105.  `text` and `timeStr` are strings or `undefined`
(`none`). -/
def createItem (H : Host) (text timeStr : Option String) (s : State) : State :=
  match text with
  | none => s
  | some t =>
    if t = "" ∨ jsTrim t = "" then s
    else
      speak none ("Added " ++ t)
        (saveTasks (createItemDOM H (some (Json.str t)) (timeStr.map Json.str) false s))

/-- Lines 108-111. -/
def clearHistory (s : State) : State :=
  saveTasks { s with completedList := [] }

/-- The `forEach` of line 21 or 22 over the elements of a parsed array:
`createItemDOM(task.text, task.time, isCompleted)` for each one, stopping at
the first element whose property read raises. -/
def loadEach (H : Host) (isCompleted : Bool) : List Json → State → State × Option JsError
  | [], s => (s, none)
  | task :: rest, s =>
    match getProp task "text", getProp task "time" with
    | some text, some time => loadEach H isCompleted rest (createItemDOM H text time isCompleted s)
    | _, _ => (s, some JsError.typeError)

/-- The statement `saved.forEach(...)`: only an array has a `forEach`. -/
def forEachTask (H : Host) (isCompleted : Bool) (saved : Json) (s : State) :
    State × Option JsError :=
  match saved with
  | Json.arr items => loadEach H isCompleted items s
  | _ => (s, some JsError.typeError)

/-- The expression `JSON.parse(localStorage.getItem(key)) || []`; `none` when
`JSON.parse` throws.  An absent entry is `null`, which `JSON.parse` reads as
the text `null`. -/
def parseStored (H : Host) (entry : Option String) : Option Json :=
  match JSON.parse (entry.getD "null") with
  | none => none
  | some v => if truthy H (some v) then some v else some (Json.arr [])

/-- Lines 17-23.  Returns the page as the run leaves it and the error it
raised, if any. -/
def loadTasks (H : Host) (s : State) : State × Option JsError :=
  match parseStored H s.activeTasks with
  | none => (s, some JsError.parseError)
  | some savedActive =>
    match parseStored H s.completedTasks with
    | none => (s, some JsError.parseError)
    | some savedCompleted =>
      match forEachTask H false savedActive s with
      | (s1, some e) => (s1, some e)
      | (s1, none) => forEachTask H true savedCompleted s1

/-- The click handler of lines 67-92, run for the item at position `i` of
list `p` (nothing happens when there is no such item). -/
def click (p : ListId) (i : Nat) (s : State) : State :=
  match (s.items p)[i]? with
  | none => s
  | some li =>
    if li.ringing then
      { s.setItems p ((s.items p).set i { li with ringing := false }) with
        log := s.log ++ [{ source := some (p, i), effect := Effect.alarmPause }] }
    else if p = ListId.todoList then
      s.setItems p ((s.items p).set i
        { li with moveDown := true, listeners := li.listeners ++ [Listener.toHistory] })
    else
      s.setItems p ((s.items p).set i
        { li with moveUp := true, listeners := li.listeners ++ [Listener.toActive] })

/-- One `animationend` listener, run for the item at position `i` of list
`p`: it drops its transition class, `appendChild` takes the item out of its
list and puts it at the end of the target list, and `saveTasks` runs.
Returns the page and where the item now is. -/
def runListener (k : Listener) (x : State × ListId × Nat) : State × ListId × Nat :=
  match x with
  | (s, p, i) =>
    match (s.items p)[i]? with
    | none => (s, p, i)
    | some li =>
      let detached := s.setItems p ((s.items p).eraseIdx i)
      match k with
      | Listener.toHistory =>
        let s1 := { detached with
          completedList := detached.completedList ++ [{ li with moveDown := false }] }
        (saveTasks s1, ListId.completedList, s1.completedList.length - 1)
      | Listener.toActive =>
        let s1 := { detached with
          todoList := detached.todoList ++ [{ li with moveUp := false }] }
        (saveTasks s1, ListId.todoList, s1.todoList.length - 1)

/-- The event `animationend` on the item at position `i` of list `p`: its
pending one-shot listeners run in the order they were registered, and are
gone afterwards. -/
def animationend (p : ListId) (i : Nat) (s : State) : State :=
  match (s.items p)[i]? with
  | none => s
  | some li =>
    let s0 := s.setItems p ((s.items p).set i { li with listeners := [] })
    (li.listeners.foldl (fun x k => runListener k x) (s0, p, i)).1

/-- The reading of `new Date()`. -/
structure Clock where
  hours : Nat
  minutes : Nat
  seconds : Nat
  deriving DecidableEq, Repr

/-- Line 145: the hours and the minutes, each `padStart(2, '0')`, around a
colon. -/
def currentStr (now : Clock) : String :=
  padStart2 (Nat.repr now.hours) ++ ":" ++ padStart2 (Nat.repr now.minutes)

/-- The body of the `forEach` of lines 147-157 for the item at position
`i`: the item afterwards and the device calls made. -/
def tickLi (cur : String) (i : Nat) (li : Li) : Li × List Emitted :=
  if li.alarmTime = some cur then
    if !li.ringing then
      ({ li with ringing := true },
        [{ source := some (ListId.todoList, i), effect := Effect.alarmPlay },
         { source := some (ListId.todoList, i),
           effect := Effect.speak ("Time for " ++ li.text) }])
    else (li, [])
  else (li, [])

/-- The `forEach` of lines 147-157 over the items from position `i` on. -/
def tickFrom (cur : String) : Nat → List Li → List Li × List Emitted
  | _, [] => ([], [])
  | i, li :: rest =>
    let r := tickLi cur i li
    let rs := tickFrom cur (i + 1) rest
    (r.1 :: rs.1, r.2 ++ rs.2)

/-- The `setInterval` callback of lines 131-158, run at time `now`. -/
def tick (now : Clock) (s : State) : State :=
  let r := tickFrom (currentStr now) 0 s.todoList
  { s with todoList := r.1, log := s.log ++ r.2 }

/-- The test `command.startsWith('add')`. -/
def startsWithAdd (command : String) : Bool :=
  ['a', 'd', 'd'].isPrefixOf command.data

/-- The call `command.replace(/^add\s+/, '')`: when `add` and at least one `\s`
character lead the command, they and the whole run of `\s` characters are
removed; otherwise the command is returned as it is. -/
def stripAdd (command : String) : String :=
  match command.data with
  | a :: d1 :: d2 :: c :: rest =>
    if a = 'a' ∧ d1 = 'd' ∧ d2 = 'd' ∧ isJsSpace c = true then
      ⟨rest.dropWhile isJsSpace⟩
    else command
  | _ => command

/-- Lines 180-185, for the transcript `e.results[0][0].transcript`.  The call
of `createItem` passes one argument: `timeStr` is `undefined`. -/
def onresult (H : Host) (transcript : String) (s : State) : State :=
  let command := H.toLowerCase transcript
  if startsWithAdd command then createItem H (some (stripAdd command)) none s
  else s

/-- The page before `DOMContentLoaded`: both lists empty, the two stored
entries as the browser holds them, nothing said yet. -/
def State.initial (activeTasks completedTasks : Option String) : State :=
  { todoList := [], completedList := [], activeTasks := activeTasks,
    completedTasks := completedTasks, log := [] }

/-- A host for running examples: letters `A`-`Z` are lowered, a number is
zero when its digits before the exponent are all `0`, and numbers, arrays and
objects print as the empty string. -/
def sampleHost : Host :=
  { toLowerCase := fun s => ⟨s.data.map Char.toLower⟩
    numberIsZero := fun l =>
      (l.data.takeWhile (fun c => c ≠ 'e' ∧ c ≠ 'E')).all
        (fun c => c = '0' ∨ c = '-' ∨ c = '.')
    toStringOther := fun _ => "" }

/-- A run of the `setInterval` callback at each of the given times, in
order. -/
def ticks (clocks : List Clock) (s : State) : State :=
  clocks.foldl (fun x now => tick now x) s

/-- The device calls of a trace made for the item at `src`, in order. -/
def emittedFor (src : ListId × Nat) (log : List Emitted) : List Effect :=
  (log.filter (fun e => decide (e.source = some src))).map Emitted.effect

/-- The decimal digit `d` as a character. -/
def digitChar (d : Nat) : Char := Char.ofNat (48 + d)

/-- What one run of the scheduler makes of an item: it rings afterwards when
it rang before or when its label is the current one. -/
def rung (cur : String) (li : Li) : Li :=
  { li with ringing := li.ringing || decide (li.alarmTime = some cur) }

/-- An item with text `a` and label `09:05`, as `createItemDOM` builds it. -/
def alarmItem : Li :=
  { text := "a", alarmTime := some "09:05", ringing := false, moveDown := false,
    moveUp := false, listeners := [] }

/-- A page whose Active list holds `alarmItem` alone. -/
def alarmPage : State :=
  { todoList := [alarmItem], completedList := [], activeTasks := none,
    completedTasks := none, log := [] }

/-- The item `li` sits at position `i` of list `p`, and taking it out leaves
the Active list `T` and the Completed list `C`. -/
def Placed (s : State) (p : ListId) (i : Nat) (li : Li) (T C : List Li) : Prop :=
  match p with
  | ListId.todoList =>
    s.todoList[i]? = some li ∧ s.todoList.eraseIdx i = T ∧ s.completedList = C
  | ListId.completedList =>
    s.completedList[i]? = some li ∧ s.todoList = T ∧ s.completedList.eraseIdx i = C

/-- A page with Active items `a` (label `09:05`) and `b` and a Completed item
`c`, its stored entries in step with the lists. -/
def threeItemPage : State :=
  saveTasks
    { todoList := [alarmItem, ⟨"b", none, false, false, false, []⟩],
      completedList := [⟨"c", none, false, false, false, []⟩],
      activeTasks := none, completedTasks := none, log := [] }

/-- The item `createItemDOM` builds for a stored record: its text, the
`alarmTime` attribute only for a non-empty `time`, no class, no listener. -/
def Li.ofTask (t : Task) : Li :=
  { text := t.text
    alarmTime := if t.time ≠ "" then some t.time else none
    ringing := false, moveDown := false, moveUp := false, listeners := [] }

/-- The page with `l` appended to the Completed list (`done`) or to the
Active list. -/
def State.append (s : State) (done : Bool) (l : List Li) : State :=
  if done then { s with completedList := s.completedList ++ l }
  else { s with todoList := s.todoList ++ l }

/-- Whether a parsed value is an array. -/
def Json.isArr : Json → Bool
  | Json.arr _ => true
  | _ => false

/-! ## Theorems -/

theorem trimChars_eq_nil (cs : List Char) :
    trimChars cs = [] ↔ ∀ c ∈ cs, isJsSpace c = true := by
  unfold trimChars
  rw [List.reverse_eq_nil_iff, List.dropWhile_eq_nil_iff]
  constructor
  · intro h
    by_contra hcon
    have hne : cs.dropWhile isJsSpace ≠ [] := by
      intro h0
      exact hcon (List.dropWhile_eq_nil_iff.mp h0)
    have hhead := List.head_dropWhile_not isJsSpace cs hne
    have hmem : (cs.dropWhile isJsSpace).head hne ∈ (cs.dropWhile isJsSpace).reverse :=
      List.mem_reverse.mpr (List.head_mem hne)
    have := h _ hmem
    simp [this] at hhead
  · intro h x hx
    have h0 : cs.dropWhile isJsSpace = [] := List.dropWhile_eq_nil_iff.mpr h
    simp [h0] at hx

theorem jsTrim_eq_empty (t : String) :
    jsTrim t = "" ↔ ∀ c ∈ t.data, isJsSpace c = true := by
  rw [← trimChars_eq_nil]
  unfold jsTrim
  constructor
  · intro h
    have := congrArg String.data h
    simpa using this
  · intro h
    rw [h]


/-- C1. `createItem` on a text that is neither empty nor all whitespace, with
any label: the Active list gains exactly one item, at its end, with that text,
that label (`time` in the stored form; no `alarmTime` attribute for the empty
label) and no ringing class; the Completed list is unchanged; both stored
entries are the serialized new lists. -/
theorem createItem_appends (H : Host) (text label : String) (s : State)
    (hne : text ≠ "") (hws : ¬ ∀ c ∈ text.data, isJsSpace c = true) :
    ∃ li : Li,
      (createItem H (some text) (some label) s).todoList = s.todoList ++ [li] ∧
      li.text = text ∧ li.time = label ∧
      li.alarmTime = (if label = "" then none else some label) ∧
      li.ringing = false ∧
      (createItem H (some text) (some label) s).completedList = s.completedList ∧
      (createItem H (some text) (some label) s).activeTasks =
        some (JSON.stringifyTasks
          ((createItem H (some text) (some label) s).todoList.map Li.toTask)) ∧
      (createItem H (some text) (some label) s).completedTasks =
        some (JSON.stringifyTasks
          ((createItem H (some text) (some label) s).completedList.map Li.toTask)) := by
  have htrim : ¬ jsTrim text = "" := fun h => hws ((jsTrim_eq_empty text).mp h)
  by_cases hl : label = ""
  · refine ⟨{ text := text, alarmTime := none, ringing := false, moveDown := false,
              moveUp := false, listeners := [] }, ?_⟩
    simp [createItem, hne, htrim, hl, speak, saveTasks, Li.time, createItemDOM, toTextContent,
      toStr, truthy]
  · refine ⟨{ text := text, alarmTime := some label, ringing := false, moveDown := false,
              moveUp := false, listeners := [] }, ?_⟩
    simp [createItem, hne, htrim, hl, speak, saveTasks, Li.time, createItemDOM, toTextContent,
      toStr, truthy]

/-- Witness for C1: the text `buy milk` with the empty label. -/
theorem createItem_appends_witness :
    ∃ li : Li,
      (createItem sampleHost (some "buy milk") (some "") (State.initial none none)).todoList =
        (State.initial none none).todoList ++ [li] ∧
      li.text = "buy milk" ∧ li.time = "" ∧
      li.alarmTime = (if "" = "" then none else some "") ∧
      li.ringing = false ∧
      (createItem sampleHost (some "buy milk") (some "") (State.initial none none)).completedList
        = (State.initial none none).completedList ∧
      (createItem sampleHost (some "buy milk") (some "") (State.initial none none)).activeTasks =
        some (JSON.stringifyTasks
          ((createItem sampleHost (some "buy milk") (some "")
            (State.initial none none)).todoList.map Li.toTask)) ∧
      (createItem sampleHost (some "buy milk") (some "") (State.initial none none)).completedTasks
        = some (JSON.stringifyTasks
          ((createItem sampleHost (some "buy milk") (some "")
            (State.initial none none)).completedList.map Li.toTask)) :=
  createItem_appends sampleHost "buy milk" "" (State.initial none none) (by decide) (by decide)

/-- C2. `createItem` on a text that is absent, empty or all whitespace returns
the page as it was: both lists, both stored entries and the trace of device
calls are untouched. -/
theorem createItem_blank (H : Host) (text label : Option String) (s : State)
    (h : ∀ t, text = some t → ∀ c ∈ t.data, isJsSpace c = true) :
    createItem H text label s = s := by
  cases text with
  | none => rfl
  | some t =>
    have : jsTrim t = "" := (jsTrim_eq_empty t).mpr (h t rfl)
    simp [createItem, this]

/-- Witness for C2: a text of two spaces and a tab. -/
theorem createItem_blank_witness :
    createItem sampleHost (some "  \t") (some "09:05")
      (createItem sampleHost (some "buy milk") (some "") (State.initial none none)) =
      createItem sampleHost (some "buy milk") (some "") (State.initial none none) :=
  createItem_blank sampleHost (some "  \t") (some "09:05") _ (by
    intro t ht
    cases ht
    decide)

/-- C10. `clearHistory` empties the Completed list, leaves the Active list as
it is, stores that partition, and a second call changes nothing more. -/
theorem clearHistory_idempotent (s : State) :
    (clearHistory s).completedList = [] ∧
    (clearHistory s).todoList = s.todoList ∧
    (clearHistory s).activeTasks = some (JSON.stringifyTasks (s.todoList.map Li.toTask)) ∧
    (clearHistory s).completedTasks = some (JSON.stringifyTasks []) ∧
    (clearHistory s).log = s.log ∧
    clearHistory (clearHistory s) = clearHistory s := by
  simp [clearHistory, saveTasks]

theorem tickLi_fst (cur : String) (i : Nat) (li : Li) :
    (tickLi cur i li).1 = rung cur li := by
  unfold tickLi rung
  by_cases h : li.alarmTime = some cur <;> cases hr : li.ringing <;> simp [h, hr]
  · cases li; simp_all
  · cases li; simp_all
  · cases li; simp_all

theorem tickFrom_fst (cur : String) (l : List Li) (j : Nat) :
    (tickFrom cur j l).1 = l.map (rung cur) := by
  induction l generalizing j with
  | nil => rfl
  | cons li rest ih => simp [tickFrom, ih, tickLi_fst]

theorem padStart2_repr (n : Nat) (h : n < 60) :
    padStart2 (Nat.repr n) = ⟨[digitChar (n / 10), digitChar (n % 10)]⟩ := by
  interval_cases n <;> rfl

theorem emittedFor_append (src : ListId × Nat) (a b : List Emitted) :
    emittedFor src (a ++ b) = emittedFor src a ++ emittedFor src b := by
  simp [emittedFor]

/-- The device calls the scheduler makes for one item. -/
theorem emittedFor_tickLi (cur : String) (i k : Nat) (li : Li) :
    emittedFor (ListId.todoList, i) (tickLi cur k li).2 =
      if k = i then (tickLi cur i li).2.map Emitted.effect else [] := by
  by_cases hk : k = i
  · subst hk
    unfold tickLi
    by_cases h : li.alarmTime = some cur <;> cases hr : li.ringing <;>
      simp [h, hr, emittedFor]
  · unfold tickLi
    by_cases h : li.alarmTime = some cur <;> cases hr : li.ringing <;>
      simp [h, hr, emittedFor, hk]

theorem emittedFor_tickFrom_lt (cur : String) (l : List Li) (i j : Nat) (h : i < j) :
    emittedFor (ListId.todoList, i) (tickFrom cur j l).2 = [] := by
  induction l generalizing j with
  | nil => rfl
  | cons li rest ih =>
    have hne : ¬ j = i := by omega
    simp [tickFrom, emittedFor_append, emittedFor_tickLi, hne, ih (j + 1) (by omega)]

theorem emittedFor_tickFrom (cur : String) (l : List Li) (i j : Nat) (li : Li)
    (h : l[i]? = some li) :
    emittedFor (ListId.todoList, j + i) (tickFrom cur j l).2 =
      (tickLi cur (j + i) li).2.map Emitted.effect := by
  induction l generalizing i j with
  | nil => simp at h
  | cons x rest ih =>
    cases i with
    | zero =>
      simp at h
      subst h
      simp [tickFrom, emittedFor_append, emittedFor_tickLi,
        emittedFor_tickFrom_lt cur rest j (j + 1) (by omega)]
    | succ n =>
      simp at h
      have hne : ¬ j = j + (n + 1) := by omega
      have := ih n (j + 1) h
      have e : j + 1 + n = j + (n + 1) := by omega
      rw [e] at this
      simp [tickFrom, emittedFor_append, emittedFor_tickLi, hne, this]

/-- One run of the scheduler, seen from the item at position `i` of the
Active list. -/
theorem tick_at (now : Clock) (s : State) (i : Nat) (li : Li) (h : s.todoList[i]? = some li) :
    (tick now s).todoList[i]? = some (tickLi (currentStr now) i li).1 ∧
    emittedFor (ListId.todoList, i) (tick now s).log =
      emittedFor (ListId.todoList, i) s.log ++
        (tickLi (currentStr now) i li).2.map Emitted.effect := by
  constructor
  · simp [tick, tickFrom_fst, tickLi_fst, h]
  · have := emittedFor_tickFrom (currentStr now) s.todoList i 0 li h
    simp only [Nat.zero_add] at this
    simp [tick, emittedFor_append, this]

/-- C9. One run of the scheduler at a time with hour below 24 and minute
below 60: the current label is the two-digit hour, a colon and the two-digit
minute; every Active item rings afterwards exactly when it rang before or its
label is the current label, and is otherwise as it was; the Completed list
(ringing classes included) and the stored entries are untouched. -/
theorem tick_postcondition (s : State) (now : Clock)
    (hh : now.hours < 24) (hm : now.minutes < 60) :
    (currentStr now).data =
      [digitChar (now.hours / 10), digitChar (now.hours % 10), ':',
       digitChar (now.minutes / 10), digitChar (now.minutes % 10)] ∧
    (tick now s).todoList = s.todoList.map (fun li =>
      { li with ringing := li.ringing || decide (li.alarmTime = some (currentStr now)) }) ∧
    (∀ (i : Nat) (li : Li), s.todoList[i]? = some li → ∃ li2 : Li, (tick now s).todoList[i]? = some li2 ∧
      (li2.ringing = true ↔ (li.ringing = true ∨ li.alarmTime = some (currentStr now))) ∧
      li2.text = li.text ∧ li2.alarmTime = li.alarmTime) ∧
    (tick now s).completedList = s.completedList ∧
    (tick now s).activeTasks = s.activeTasks ∧
    (tick now s).completedTasks = s.completedTasks := by
  refine ⟨?_, ?_, ?_, rfl, rfl, rfl⟩
  · simp [currentStr, padStart2_repr now.hours (by omega), padStart2_repr now.minutes hm]
  · simp [tick, tickFrom_fst]
    intro a _
    rfl
  · intro i li hi
    refine ⟨rung (currentStr now) li, ?_, ?_, rfl, rfl⟩
    · simp [tick, tickFrom_fst, hi]
    · simp [rung]

/-- Witness for C9: 09:05:00, one Active item labelled `09:05`, one with no
label, and a Completed item labelled `09:05`. -/
theorem tick_postcondition_witness :
    (tick ⟨9, 5, 0⟩
      { todoList := [⟨"a", some "09:05", false, false, false, []⟩,
                     ⟨"b", none, false, false, false, []⟩],
        completedList := [⟨"c", some "09:05", false, false, false, []⟩],
        activeTasks := none, completedTasks := none, log := [] }).todoList =
      [⟨"a", some "09:05", true, false, false, []⟩, ⟨"b", none, false, false, false, []⟩] :=
  (tick_postcondition _ ⟨9, 5, 0⟩ (by decide) (by decide)).2.1

theorem ticks_append (a b : List Clock) (s : State) :
    ticks (a ++ b) s = ticks b (ticks a s) := by
  simp [ticks]

/-- Runs of the scheduler at times whose label is not the item's label leave
the item as it is and make no device call for it. -/
theorem ticks_other_label (pre : List Clock) (s : State) (i : Nat) (li : Li) (L : String)
    (hli : s.todoList[i]? = some li) (hL : li.alarmTime = some L)
    (hpre : ∀ c ∈ pre, currentStr c ≠ L) :
    (ticks pre s).todoList[i]? = some li ∧
    emittedFor (ListId.todoList, i) (ticks pre s).log =
      emittedFor (ListId.todoList, i) s.log := by
  induction pre generalizing s with
  | nil => exact ⟨hli, rfl⟩
  | cons c rest ih =>
    have hc : ¬ L = currentStr c := fun h => hpre c (List.mem_cons_self _ _) h.symm
    have h1 := tick_at c s i li hli
    have e : tickLi (currentStr c) i li = (li, []) := by
      simp [tickLi, hL, hc]
    rw [e] at h1
    have h2 := ih (tick c s) h1.1 (fun c hc => hpre c (List.mem_cons_of_mem _ hc))
    refine ⟨h2.1, ?_⟩
    have h3 := h2.2
    simp only [List.map_nil, List.append_nil] at h1
    rw [h1.2] at h3
    exact h3

/-- Runs of the scheduler on an item that already rings leave it ringing and
make no device call for it. -/
theorem ticks_ringing (post : List Clock) (s : State) (i : Nat) (li : Li)
    (hli : s.todoList[i]? = some li) (hr : li.ringing = true) :
    (ticks post s).todoList[i]? = some li ∧
    emittedFor (ListId.todoList, i) (ticks post s).log =
      emittedFor (ListId.todoList, i) s.log := by
  induction post generalizing s with
  | nil => exact ⟨hli, rfl⟩
  | cons c rest ih =>
    have h1 := tick_at c s i li hli
    have e : tickLi (currentStr c) i li = (li, []) := by
      simp [tickLi, hr]
    rw [e] at h1
    have h2 := ih (tick c s) h1.1
    refine ⟨h2.1, ?_⟩
    have h3 := h2.2
    simp only [List.map_nil, List.append_nil] at h1
    rw [h1.2] at h3
    exact h3

/-- C5. An Active item with label `L` that does not ring, under runs of the
scheduler (no clicks) at times whose labels first differ from `L` (`pre`) and
then equal `L` (`post`): after every run of `pre` the item is as it was and no
device call has been made for it; after the first run of `post` and after
every later one it rings, and the device calls made for it since the start
are exactly one `alarmSound.play()` and one `speak("Time for " + text)`. -/
theorem scheduler_fires_once (s : State) (i : Nat) (li : Li) (L : String)
    (pre post : List Clock)
    (hli : s.todoList[i]? = some li) (hr : li.ringing = false) (hL : li.alarmTime = some L)
    (hpre : ∀ c ∈ pre, currentStr c ≠ L) (hpost : ∀ c ∈ post, currentStr c = L) :
    (∀ k, k ≤ pre.length →
      (ticks (pre.take k) s).todoList[i]? = some li ∧
      emittedFor (ListId.todoList, i) (ticks (pre.take k) s).log =
        emittedFor (ListId.todoList, i) s.log) ∧
    (∀ k, 0 < k → k ≤ post.length →
      (ticks (pre ++ post.take k) s).todoList[i]? = some { li with ringing := true } ∧
      emittedFor (ListId.todoList, i) (ticks (pre ++ post.take k) s).log =
        emittedFor (ListId.todoList, i) s.log ++
          [Effect.alarmPlay, Effect.speak ("Time for " ++ li.text)]) := by
  constructor
  · intro k _
    exact ticks_other_label (pre.take k) s i li L hli hL
      (fun c hc => hpre c (List.mem_of_mem_take hc))
  · intro k hk hkl
    have h0 := ticks_other_label pre s i li L hli hL hpre
    rw [ticks_append]
    cases post with
    | nil => simp at hkl; omega
    | cons c rest =>
      cases k with
      | zero => omega
      | succ n =>
        have hc : currentStr c = L := hpost c (List.mem_cons_self _ _)
        have h1 := tick_at c (ticks pre s) i li h0.1
        have e : tickLi (currentStr c) i li =
            ({ li with ringing := true },
              [{ source := some (ListId.todoList, i), effect := Effect.alarmPlay },
               { source := some (ListId.todoList, i),
                 effect := Effect.speak ("Time for " ++ li.text) }]) := by
          simp [tickLi, hL, hc, hr]
        rw [e] at h1
        have h2 := ticks_ringing (rest.take n) (tick c (ticks pre s)) i
          { li with ringing := true } h1.1 rfl
        have e2 : ticks (List.take (n + 1) (c :: rest)) (ticks pre s) =
            ticks (rest.take n) (tick c (ticks pre s)) := by
          simp [ticks]
        rw [e2]
        refine ⟨h2.1, ?_⟩
        rw [h2.2, h1.2, h0.2]
        rfl

/-- Witness for C5: label `09:05`, the clock at 09:04:59, 09:05:00 and
09:05:01. -/
theorem scheduler_fires_once_witness :
    (ticks ([⟨9, 4, 59⟩] ++ List.take 2 [⟨9, 5, 0⟩, ⟨9, 5, 1⟩]) alarmPage).todoList[0]? =
      some { alarmItem with ringing := true } ∧
    emittedFor (ListId.todoList, 0)
        (ticks ([⟨9, 4, 59⟩] ++ List.take 2 [⟨9, 5, 0⟩, ⟨9, 5, 1⟩]) alarmPage).log =
      emittedFor (ListId.todoList, 0) alarmPage.log ++
        [Effect.alarmPlay, Effect.speak ("Time for " ++ alarmItem.text)] :=
  (scheduler_fires_once alarmPage 0 alarmItem "09:05" [⟨9, 4, 59⟩] [⟨9, 5, 0⟩, ⟨9, 5, 1⟩]
    rfl rfl rfl (by decide) (by decide)).2 2 (by decide) (by decide)

/-- C6 (the code at the failing input). With the clock inside 09:05
throughout: the scheduler runs, the ringing item is clicked, the scheduler
runs again one second later. The item is set ringing twice: the alarm is
played and `Time for a` is spoken a second time within the same minute. -/
theorem rings_again_after_dismissal :
    emittedFor (ListId.todoList, 0)
        (tick ⟨9, 5, 1⟩ (click ListId.todoList 0 (tick ⟨9, 5, 0⟩ alarmPage))).log =
      [Effect.alarmPlay, Effect.speak "Time for a", Effect.alarmPause,
       Effect.alarmPlay, Effect.speak "Time for a"] ∧
    (tick ⟨9, 5, 1⟩ (click ListId.todoList 0 (tick ⟨9, 5, 0⟩ alarmPage))).todoList =
      [{ alarmItem with ringing := true }] := by
  decide

theorem eraseIdx_set_self (l : List Li) (i : Nat) (a : Li) :
    (l.set i a).eraseIdx i = l.eraseIdx i := by
  induction l generalizing i with
  | nil => rfl
  | cons x rest ih =>
    cases i with
    | zero => rfl
    | succ n => simp [ih]

theorem eraseIdx_append_last (l : List Li) (a : Li) :
    (l ++ [a]).eraseIdx l.length = l := by
  induction l with
  | nil => rfl
  | cons x rest ih => simp [ih]


/-- The listener registered for an Active item. -/
theorem runListener_toHistory (s : State) (p : ListId) (i : Nat) (li : Li) (T C : List Li)
    (h : Placed s p i li T C) :
    runListener Listener.toHistory (s, p, i) =
      (saveTasks { s with todoList := T, completedList := C ++ [{ li with moveDown := false }] },
        ListId.completedList, C.length) := by
  cases p with
  | todoList =>
    obtain ⟨h1, h2, h3⟩ := h
    simp [runListener, State.items, State.setItems, h1, h2, h3]
  | completedList =>
    obtain ⟨h1, h2, h3⟩ := h
    simp [runListener, State.items, State.setItems, h1, h2, h3]

/-- The listener registered for a Completed item. -/
theorem runListener_toActive (s : State) (p : ListId) (i : Nat) (li : Li) (T C : List Li)
    (h : Placed s p i li T C) :
    runListener Listener.toActive (s, p, i) =
      (saveTasks { s with todoList := T ++ [{ li with moveUp := false }], completedList := C },
        ListId.todoList, T.length) := by
  cases p with
  | todoList =>
    obtain ⟨h1, h2, h3⟩ := h
    simp [runListener, State.items, State.setItems, h1, h2, h3]
  | completedList =>
    obtain ⟨h1, h2, h3⟩ := h
    simp [runListener, State.items, State.setItems, h1, h2, h3]

/-- Running pending listeners keeps the item placed over the same two
remainders, with its text, label and ringing class. -/
theorem foldl_runListener_placed (ks : List Listener) (s : State) (p : ListId) (i : Nat)
    (li : Li) (T C : List Li) (h : Placed s p i li T C) :
    ∃ s2 p2 i2 li2,
      ks.foldl (fun x k => runListener k x) (s, p, i) = (s2, p2, i2) ∧
      Placed s2 p2 i2 li2 T C ∧
      li2.text = li.text ∧ li2.alarmTime = li.alarmTime ∧ li2.ringing = li.ringing ∧
      s2.log = s.log := by
  induction ks generalizing s p i li with
  | nil => exact ⟨s, p, i, li, rfl, h, rfl, rfl, rfl, rfl⟩
  | cons k rest ih =>
    cases k with
    | toHistory =>
      have e := runListener_toHistory s p i li T C h
      have hp : Placed
          (saveTasks { s with todoList := T,
                              completedList := C ++ [{ li with moveDown := false }] })
          ListId.completedList C.length { li with moveDown := false } T C := by
        simp [Placed, saveTasks, eraseIdx_append_last]
      obtain ⟨s2, p2, i2, li2, h1, h2, h3, h4, h5, h6⟩ := ih _ _ _ _ hp
      refine ⟨s2, p2, i2, li2, ?_, h2, h3, h4, h5, h6⟩
      simp only [List.foldl_cons, e]
      exact h1
    | toActive =>
      have e := runListener_toActive s p i li T C h
      have hp : Placed
          (saveTasks { s with todoList := T ++ [{ li with moveUp := false }],
                              completedList := C })
          ListId.todoList T.length { li with moveUp := false } T C := by
        simp [Placed, saveTasks, eraseIdx_append_last]
      obtain ⟨s2, p2, i2, li2, h1, h2, h3, h4, h5, h6⟩ := ih _ _ _ _ hp
      refine ⟨s2, p2, i2, li2, ?_, h2, h3, h4, h5, h6⟩
      simp only [List.foldl_cons, e]
      exact h1

/-- A click on a non-ringing Active item followed by the end of its
transition. -/
theorem click_animationend_todo (s : State) (i : Nat) (li : Li)
    (h : s.todoList[i]? = some li) (hr : li.ringing = false) :
    ∃ li2 : Li,
      (animationend ListId.todoList i (click ListId.todoList i s)).todoList =
        s.todoList.eraseIdx i ∧
      (animationend ListId.todoList i (click ListId.todoList i s)).completedList =
        s.completedList ++ [li2] ∧
      li2.text = li.text ∧ li2.alarmTime = li.alarmTime ∧ li2.ringing = false ∧
      (animationend ListId.todoList i (click ListId.todoList i s)).log = s.log ∧
      animationend ListId.todoList i (click ListId.todoList i s) =
        saveTasks (animationend ListId.todoList i (click ListId.todoList i s)) := by
  obtain ⟨tx, al, rg, md, mu, ls⟩ := li
  simp only at hr
  subst hr
  have hlt : i < s.todoList.length := by
    rcases Nat.lt_or_ge i s.todoList.length with h1 | h1
    · exact h1
    · rw [List.getElem?_eq_none h1] at h; cases h
  have hp : Placed
      { s with todoList := s.todoList.set i ⟨tx, al, false, true, mu, []⟩ }
      ListId.todoList i ⟨tx, al, false, true, mu, []⟩
      (s.todoList.eraseIdx i) s.completedList := by
    simp [Placed, eraseIdx_set_self, hlt]
  obtain ⟨s2, p2, i2, li2, h1, h2, h3, h4, h5, h6⟩ :=
    foldl_runListener_placed ls _ _ _ _ _ _ hp
  have e := runListener_toHistory s2 p2 i2 li2 _ _ h2
  have hrun : animationend ListId.todoList i (click ListId.todoList i s) =
      saveTasks { s2 with todoList := s.todoList.eraseIdx i,
                          completedList := s.completedList ++ [{ li2 with moveDown := false }] } := by
    simp [animationend, click, State.items, State.setItems, h, hlt, List.foldl_append, h1, e]
  refine ⟨{ li2 with moveDown := false }, ?_⟩
  rw [hrun]
  simp [saveTasks, h3, h4, h5, h6]

/-- A click on a non-ringing Completed item followed by the end of its
transition. -/
theorem click_animationend_completed (s : State) (i : Nat) (li : Li)
    (h : s.completedList[i]? = some li) (hr : li.ringing = false) :
    ∃ li2 : Li,
      (animationend ListId.completedList i (click ListId.completedList i s)).completedList =
        s.completedList.eraseIdx i ∧
      (animationend ListId.completedList i (click ListId.completedList i s)).todoList =
        s.todoList ++ [li2] ∧
      li2.text = li.text ∧ li2.alarmTime = li.alarmTime ∧ li2.ringing = false ∧
      (animationend ListId.completedList i (click ListId.completedList i s)).log = s.log ∧
      animationend ListId.completedList i (click ListId.completedList i s) =
        saveTasks (animationend ListId.completedList i (click ListId.completedList i s)) := by
  obtain ⟨tx, al, rg, md, mu, ls⟩ := li
  simp only at hr
  subst hr
  have hlt : i < s.completedList.length := by
    rcases Nat.lt_or_ge i s.completedList.length with h1 | h1
    · exact h1
    · rw [List.getElem?_eq_none h1] at h; cases h
  have hp : Placed
      { s with completedList := s.completedList.set i ⟨tx, al, false, md, true, []⟩ }
      ListId.completedList i ⟨tx, al, false, md, true, []⟩
      s.todoList (s.completedList.eraseIdx i) := by
    simp [Placed, eraseIdx_set_self, hlt]
  obtain ⟨s2, p2, i2, li2, h1, h2, h3, h4, h5, h6⟩ :=
    foldl_runListener_placed ls _ _ _ _ _ _ hp
  have e := runListener_toActive s2 p2 i2 li2 _ _ h2
  have hrun : animationend ListId.completedList i (click ListId.completedList i s) =
      saveTasks { s2 with todoList := s.todoList ++ [{ li2 with moveUp := false }],
                          completedList := s.completedList.eraseIdx i } := by
    simp [animationend, click, State.items, State.setItems, h, hlt, List.foldl_append, h1, e]
  refine ⟨{ li2 with moveUp := false }, ?_⟩
  rw [hrun]
  simp [saveTasks, h3, h4, h5, h6]

theorem map_set_same {β : Type} (f : Li → β) (l : List Li) (i : Nat) (li a : Li)
    (h : l[i]? = some li) (hf : f a = f li) : (l.set i a).map f = l.map f := by
  induction l generalizing i with
  | nil => rfl
  | cons x rest ih =>
    cases i with
    | zero =>
      simp at h
      subst h
      simp [hf]
    | succ n =>
      simp at h
      simp [ih n h]

/-- C4 (amended). The click handler on the item at position `i` of list `p`.
A ringing item loses the ringing class and nothing else changes: both lists
keep their items and order, and the stored entries are not rewritten. A
non-ringing Active item is, once `animationend` has fired, gone from its
position in the Active list and the last item of the Completed list; a
non-ringing Completed item is, once `animationend` has fired, gone from its
position in the Completed list and the last item of the Active list; the other
items keep their list and order, and in these two cases both stored entries
are the serialized resulting lists. -/
theorem click_dispatch (s : State) (p : ListId) (i : Nat) (li : Li)
    (h : (s.items p)[i]? = some li) :
    (li.ringing = true →
      (click p i s).items p = (s.items p).set i { li with ringing := false } ∧
      (∀ q, q ≠ p → (click p i s).items q = s.items q) ∧
      (click p i s).todoList.map Li.toTask = s.todoList.map Li.toTask ∧
      (click p i s).completedList.map Li.toTask = s.completedList.map Li.toTask ∧
      (click p i s).activeTasks = s.activeTasks ∧
      (click p i s).completedTasks = s.completedTasks) ∧
    (li.ringing = false → p = ListId.todoList → ∃ li2 : Li,
      (animationend p i (click p i s)).todoList = s.todoList.eraseIdx i ∧
      (animationend p i (click p i s)).completedList = s.completedList ++ [li2] ∧
      li2.text = li.text ∧ li2.alarmTime = li.alarmTime ∧ li2.ringing = false ∧
      (animationend p i (click p i s)).activeTasks =
        some (JSON.stringifyTasks ((animationend p i (click p i s)).todoList.map Li.toTask)) ∧
      (animationend p i (click p i s)).completedTasks =
        some (JSON.stringifyTasks
          ((animationend p i (click p i s)).completedList.map Li.toTask))) ∧
    (li.ringing = false → p = ListId.completedList → ∃ li2 : Li,
      (animationend p i (click p i s)).completedList = s.completedList.eraseIdx i ∧
      (animationend p i (click p i s)).todoList = s.todoList ++ [li2] ∧
      li2.text = li.text ∧ li2.alarmTime = li.alarmTime ∧ li2.ringing = false ∧
      (animationend p i (click p i s)).activeTasks =
        some (JSON.stringifyTasks ((animationend p i (click p i s)).todoList.map Li.toTask)) ∧
      (animationend p i (click p i s)).completedTasks =
        some (JSON.stringifyTasks
          ((animationend p i (click p i s)).completedList.map Li.toTask))) := by
  refine ⟨?_, ?_, ?_⟩
  · intro hr
    have hrec : Li.toTask { li with ringing := false } = Li.toTask li := rfl
    cases p with
    | todoList =>
      simp only [State.items] at h
      refine ⟨?_, ?_, ?_, ?_, ?_, ?_⟩
      · simp [click, State.items, State.setItems, h, hr]
      · intro q hq
        cases q with
        | todoList => exact absurd rfl hq
        | completedList => simp [click, State.items, State.setItems, h, hr]
      · simp only [click, State.items, State.setItems, h, hr, if_true]
        exact map_set_same Li.toTask _ _ _ _ h hrec
      · simp [click, State.items, State.setItems, h, hr]
      · simp [click, State.items, State.setItems, h, hr]
      · simp [click, State.items, State.setItems, h, hr]
    | completedList =>
      simp only [State.items] at h
      refine ⟨?_, ?_, ?_, ?_, ?_, ?_⟩
      · simp [click, State.items, State.setItems, h, hr]
      · intro q hq
        cases q with
        | todoList => simp [click, State.items, State.setItems, h, hr]
        | completedList => exact absurd rfl hq
      · simp [click, State.items, State.setItems, h, hr]
      · simp only [click, State.items, State.setItems, h, hr, if_true]
        exact map_set_same Li.toTask _ _ _ _ h hrec
      · simp [click, State.items, State.setItems, h, hr]
      · simp [click, State.items, State.setItems, h, hr]
  · intro hr hp
    subst hp
    obtain ⟨li2, h1, h2, h3, h4, h5, _, h7⟩ := click_animationend_todo s i li h hr
    refine ⟨li2, h1, h2, h3, h4, h5, ?_, ?_⟩
    · exact (congrArg State.activeTasks h7).trans rfl
    · exact (congrArg State.completedTasks h7).trans rfl
  · intro hr hp
    subst hp
    obtain ⟨li2, h1, h2, h3, h4, h5, _, h7⟩ := click_animationend_completed s i li h hr
    refine ⟨li2, h1, h2, h3, h4, h5, ?_, ?_⟩
    · exact (congrArg State.activeTasks h7).trans rfl
    · exact (congrArg State.completedTasks h7).trans rfl

/-- Witness for C4: the non-ringing Active item `a` of `threeItemPage` is
clicked and its transition ends. -/
theorem click_dispatch_witness :
    ∃ li2 : Li,
      (animationend ListId.todoList 0 (click ListId.todoList 0 threeItemPage)).todoList =
        threeItemPage.todoList.eraseIdx 0 ∧
      (animationend ListId.todoList 0 (click ListId.todoList 0 threeItemPage)).completedList =
        threeItemPage.completedList ++ [li2] ∧
      li2.text = alarmItem.text ∧ li2.alarmTime = alarmItem.alarmTime ∧ li2.ringing = false ∧
      (animationend ListId.todoList 0 (click ListId.todoList 0 threeItemPage)).activeTasks =
        some (JSON.stringifyTasks
          ((animationend ListId.todoList 0
            (click ListId.todoList 0 threeItemPage)).todoList.map Li.toTask)) ∧
      (animationend ListId.todoList 0 (click ListId.todoList 0 threeItemPage)).completedTasks =
        some (JSON.stringifyTasks
          ((animationend ListId.todoList 0
            (click ListId.todoList 0 threeItemPage)).completedList.map Li.toTask)) :=
  (click_dispatch threeItemPage ListId.todoList 0 alarmItem rfl).2.1 rfl rfl

/-- C4 (counterexample to the claim as stated). The stored Active entry is an
array whose second element is `null`: `loadTasks` builds the first item and
raises on the second. At 09:05 the item rings; it is clicked. The click clears
the ringing class and does not call `saveTasks`: the stored Active entry is
still the old text, not the serialized Active list, and loading it back
raises. -/
theorem click_ringing_store_stale :
    ((tick ⟨9, 5, 0⟩ (loadTasks sampleHost (State.initial
        (some "[\x7b\"text\":\"a\",\"time\":\"09:05\"\x7d,null]") none)).1).todoList.map
          Li.ringing = [true]) ∧
    (click ListId.todoList 0 (tick ⟨9, 5, 0⟩ (loadTasks sampleHost (State.initial
        (some "[\x7b\"text\":\"a\",\"time\":\"09:05\"\x7d,null]") none)).1)).todoList =
      [alarmItem] ∧
    (click ListId.todoList 0 (tick ⟨9, 5, 0⟩ (loadTasks sampleHost (State.initial
        (some "[\x7b\"text\":\"a\",\"time\":\"09:05\"\x7d,null]") none)).1)).activeTasks ≠
      some (JSON.stringifyTasks [alarmItem.toTask]) ∧
    (loadTasks sampleHost (State.initial
      (click ListId.todoList 0 (tick ⟨9, 5, 0⟩ (loadTasks sampleHost (State.initial
        (some "[\x7b\"text\":\"a\",\"time\":\"09:05\"\x7d,null]") none)).1)).activeTasks
      none)).2 = some JsError.typeError := by
  decide

theorem startsWithAdd_cons (ws rest : List Char) :
    startsWithAdd ⟨'a' :: 'd' :: 'd' :: (ws ++ rest)⟩ = true := by
  simp [startsWithAdd]

theorem dropWhile_run (ws rest : List Char) (hws : ∀ x ∈ ws, isJsSpace x = true)
    (hrest : ∀ x, rest.head? = some x → isJsSpace x = false) :
    (ws ++ rest).dropWhile isJsSpace = rest := by
  induction ws with
  | nil =>
    cases rest with
    | nil => rfl
    | cons x xs => simp [List.dropWhile, hrest x rfl]
  | cons w ws ih =>
    have hw : isJsSpace w = true := hws w (List.mem_cons_self _ _)
    simp [List.dropWhile, hw]
    exact ih (fun x hx => hws x (List.mem_cons_of_mem _ hx))

theorem stripAdd_run (ws rest : List Char) (hne : ws ≠ [])
    (hws : ∀ x ∈ ws, isJsSpace x = true)
    (hrest : ∀ x, rest.head? = some x → isJsSpace x = false) :
    stripAdd ⟨'a' :: 'd' :: 'd' :: (ws ++ rest)⟩ = ⟨rest⟩ := by
  cases ws with
  | nil => exact absurd rfl hne
  | cons w ws =>
    have hw : isJsSpace w = true := hws w (List.mem_cons_self _ _)
    have := dropWhile_run ws rest (fun x hx => hws x (List.mem_cons_of_mem _ hx)) hrest
    simp [stripAdd, hw, this]

/-- C7 (amended). The recognition result handler, with `c` the lower-cased
transcript. When `c` is `add`, then a non-empty run of `\s` characters, then a
remainder that does not start with such a character, `createItem` is called
with the remainder as text and no alarm label; when moreover the remainder is
not empty, the Active list gains one item with that text and no label (`time`
is `""` in the stored form). When `c` does not start with `add`, the page is
left as it was. -/
theorem onresult_add (H : Host) (transcript : String) (s : State) :
    (∀ ws rest : List Char,
      (H.toLowerCase transcript).data = 'a' :: 'd' :: 'd' :: (ws ++ rest) →
      ws ≠ [] → (∀ x ∈ ws, isJsSpace x = true) →
      (∀ x, rest.head? = some x → isJsSpace x = false) →
      onresult H transcript s = createItem H (some ⟨rest⟩) none s ∧
      (rest ≠ [] →
        (onresult H transcript s).todoList =
          s.todoList ++ [⟨⟨rest⟩, none, false, false, false, []⟩] ∧
        (Li.toTask ⟨⟨rest⟩, none, false, false, false, []⟩) = ⟨⟨rest⟩, ""⟩ ∧
        (onresult H transcript s).completedList = s.completedList)) ∧
    (startsWithAdd (H.toLowerCase transcript) = false → onresult H transcript s = s) := by
  constructor
  · intro ws rest hc hne hws hrest
    have hc2 : H.toLowerCase transcript = ⟨'a' :: 'd' :: 'd' :: (ws ++ rest)⟩ := by
      cases hlow : H.toLowerCase transcript
      rw [hlow] at hc
      simp at hc
      rw [hc]
    have e : onresult H transcript s = createItem H (some ⟨rest⟩) none s := by
      simp only [onresult, hc2, startsWithAdd_cons, stripAdd_run ws rest hne hws hrest, if_true]
    refine ⟨e, ?_⟩
    intro hrne
    rw [e]
    cases rest with
    | nil => exact absurd rfl hrne
    | cons r rs =>
      have hr : isJsSpace r = false := hrest r rfl
      have h1 : ¬ ((⟨r :: rs⟩ : String) = "") := by
        intro h
        have := congrArg String.data h
        simp at this
      have h2 : ¬ jsTrim ⟨r :: rs⟩ = "" := by
        intro h
        have := (jsTrim_eq_empty _).mp h r (List.mem_cons_self _ _)
        rw [hr] at this
        cases this
      simp [createItem, h1, h2, speak, saveTasks, createItemDOM, toTextContent, toStr, truthy,
        Li.toTask, Li.time]
  · intro h
    simp [onresult, h]

/-- Witness for C7: the transcript `Add Buy MILK`. -/
theorem onresult_add_witness :
    onresult sampleHost "Add Buy MILK" threeItemPage =
      createItem sampleHost (some "buy milk") none threeItemPage ∧
    ("buy milk".data ≠ [] →
      (onresult sampleHost "Add Buy MILK" threeItemPage).todoList =
        threeItemPage.todoList ++ [⟨"buy milk", none, false, false, false, []⟩] ∧
      (Li.toTask ⟨"buy milk", none, false, false, false, []⟩) = ⟨"buy milk", ""⟩ ∧
      (onresult sampleHost "Add Buy MILK" threeItemPage).completedList =
        threeItemPage.completedList) :=
  (onresult_add sampleHost "Add Buy MILK" threeItemPage).1 [' '] "buy milk".data
    rfl (by decide) (by decide) (by decide)

/-- C7 (counterexample to the claim as stated). The transcript is `add`, a
tab, `buy milk`: its lower-cased form does not start with `add` followed by a
space, and yet a task `buy milk` is created and stored. -/
theorem onresult_add_tab :
    sampleHost.toLowerCase "add\tbuy milk" = "add\tbuy milk" ∧
    "add ".data.isPrefixOf "add\tbuy milk".data = false ∧
    (onresult sampleHost "add\tbuy milk" (State.initial none none)).todoList =
      [⟨"buy milk", none, false, false, false, []⟩] ∧
    (onresult sampleHost "add\tbuy milk" (State.initial none none)).activeTasks =
      some "[\x7b\"text\":\"buy milk\",\"time\":\"\"\x7d]" := by
  decide

namespace JSON

theorem readChar_control (n : Nat) (h : n < 32) (X : List Char) :
    readChar (quoteChar (Char.ofNat n) ++ X) = some (some (Char.ofNat n), X) := by
  interval_cases n <;> rfl

/-- Reading back what `quoteChar` wrote. -/
theorem readChar_quoteChar (c : Char) (X : List Char) :
    readChar (quoteChar c ++ X) = some (some c, X) := by
  by_cases hc : c.toNat < 32
  · have := readChar_control c.toNat hc X
    rwa [Char.ofNat_toNat] at this
  · by_cases hq : c = '"'
    · subst hq; rfl
    · by_cases hb : c = '\\'
      · subst hb; rfl
      · have h8 : ¬ c.toNat = 8 := by omega
        have h12 : ¬ c.toNat = 12 := by omega
        have hn : ¬ c = '\n' := by intro h; subst h; exact hc (by decide)
        have hr : ¬ c = '\r' := by intro h; subst h; exact hc (by decide)
        have ht : ¬ c = '\t' := by intro h; subst h; exact hc (by decide)
        simp [quoteChar, readChar, hq, hb, h8, h12, hn, hr, ht, hc]

theorem parseStrFuel_quoteBody (s rest : List Char) (fuel : Nat) (h : s.length < fuel) :
    parseStrFuel fuel (quoteBody s ++ '"' :: rest) = some (s, rest) := by
  induction s generalizing fuel with
  | nil =>
    cases fuel with
    | zero => omega
    | succ f => rfl
  | cons c cs ih =>
    cases fuel with
    | zero => omega
    | succ f =>
      have hf : cs.length < f := by simp at h; omega
      simp only [quoteBody, List.append_assoc, parseStrFuel, readChar_quoteChar, ih f hf,
        Option.map_some']

theorem length_quoteChar_pos (c : Char) : 1 ≤ (quoteChar c).length := by
  unfold quoteChar
  split_ifs <;> simp

theorem length_quoteBody (s : List Char) : s.length ≤ (quoteBody s).length := by
  induction s with
  | nil => simp [quoteBody]
  | cons c cs ih =>
    have := length_quoteChar_pos c
    simp [quoteBody]
    omega

/-- Reading back with `parseStr` the body `JSON.stringify` wrote for a string. -/
theorem parseStr_quoteBody (s rest : List Char) :
    parseStr (quoteBody s ++ '"' :: rest) = some (s, rest) := by
  unfold parseStr
  apply parseStrFuel_quoteBody
  have := length_quoteBody s
  simp
  omega


theorem skipWs_cons_of_not (c : Char) (X : List Char) (h : isWs c = false) :
    skipWs (c :: X) = c :: X := by
  simp [skipWs, h]

theorem parseValue_quote (s : String) (rest : List Char) (f : Nat) :
    parseValue (f + 1) (quote s ++ rest) = some (Json.str s, rest) := by
  have h := parseStr_quoteBody s.data rest
  simp only [quote, List.cons_append, List.append_assoc, List.singleton_append, parseValue]
  rw [skipWs_cons_of_not _ _ (by decide)]
  simp [h]

theorem parseStr_text (X : List Char) :
    parseStr ('t' :: 'e' :: 'x' :: 't' :: '"' :: X) = some (['t', 'e', 'x', 't'], X) := by
  rfl

theorem parseStr_time (X : List Char) :
    parseStr ('t' :: 'i' :: 'm' :: 'e' :: '"' :: X) = some (['t', 'i', 'm', 'e'], X) := by
  rfl

/-- Reading back with `parseValue` what `JSON.stringify` wrote for one record. -/
theorem parseValue_stringifyTask (t : Task) (rest : List Char) (f : Nat) :
    parseValue (f + 4) (stringifyTask t ++ rest) = some (t.toJson, rest) := by
  have h1 := parseValue_quote t.text
    (',' :: '"' :: 't' :: 'i' :: 'm' :: 'e' :: '"' :: ':' :: (quote t.time ++ '}' :: rest)) (f + 1)
  have h2 := parseValue_quote t.time ('}' :: rest) f
  simp only [stringifyTask, List.cons_append, List.append_assoc, List.singleton_append,
    List.nil_append]
  show parseValue (f + 3 + 1) _ = _
  simp only [parseValue]
  rw [skipWs_cons_of_not _ _ (by decide)]
  simp only [show ('\x7b' = '"') = False from by decide, show ('\x7b' = '[') = False from by decide,
    if_false, if_true]
  rw [skipWs_cons_of_not _ _ (by decide)]
  simp only [show ('"' = '\x7d') = False from by decide, if_false]
  show parseMembers (f + 2 + 1) _ _ = _
  simp only [parseMembers]
  rw [skipWs_cons_of_not _ _ (by decide)]
  simp only [if_true, parseStr_text]
  rw [skipWs_cons_of_not _ _ (by decide)]
  simp only [if_true, h1]
  rw [skipWs_cons_of_not _ _ (by decide)]
  simp only [if_true]
  rw [skipWs_cons_of_not _ _ (by decide)]
  simp only [if_true, parseStr_time]
  rw [skipWs_cons_of_not _ _ (by decide)]
  simp only [if_true, h2]
  rw [skipWs_cons_of_not _ _ (by decide)]
  simp only [show ('\x7d' = ',') = False from by decide, if_false, if_true]
  rfl

theorem parseElems_tasks (ts : List Task) (t : Task) (rest : List Char) (acc : List Json)
    (f : Nat) :
    parseElems (f + ts.length + 5) (stringifyTask t ++ (stringifyRest ts ++ ']' :: rest)) acc =
      some (Json.arr (acc ++ (t :: ts).map Task.toJson), rest) := by
  induction ts generalizing t acc with
  | nil =>
    have h := parseValue_stringifyTask t (']' :: rest) f
    show parseElems (f + 4 + 1) _ _ = _
    simp only [parseElems, stringifyRest, List.nil_append, h]
    rw [skipWs_cons_of_not _ _ (by decide)]
    simp only [show (']' = ',') = False from by decide, if_false, if_true]
    rfl
  | cons t2 ts ih =>
    have h := parseValue_stringifyTask t
      (',' :: (stringifyTask t2 ++ (stringifyRest ts ++ ']' :: rest))) (f + ts.length + 1)
    have e : f + (t2 :: ts).length + 5 = f + ts.length + 1 + 4 + 1 := by
      simp only [List.length_cons]; omega
    rw [e, parseElems]
    simp only [stringifyRest, List.cons_append, List.append_assoc, h]
    rw [skipWs_cons_of_not _ _ (by decide)]
    simp only [if_true]
    have e2 : f + ts.length + 1 + 4 = f + ts.length + 5 := by omega
    rw [e2, ih t2 (acc ++ [t.toJson])]
    simp

theorem length_stringifyRest (ts : List Task) : ts.length ≤ (stringifyRest ts).length := by
  induction ts with
  | nil => simp [stringifyRest]
  | cons t ts ih => simp [stringifyRest]; omega

theorem length_stringifyTask (t : Task) : 4 ≤ (stringifyTask t).length := by
  simp [stringifyTask]

/-- Reading back with `JSON.parse` the array `JSON.stringify` wrote for a
list of records. -/
theorem parse_stringifyTasks (ts : List Task) :
    parse (stringifyTasks ts) = some (Json.arr (ts.map Task.toJson)) := by
  cases ts with
  | nil => rfl
  | cons t ts =>
    have h1 := length_stringifyRest ts
    have h2 := length_stringifyTask t
    obtain ⟨f, hf⟩ : ∃ f, (stringifyTask t ++ stringifyRest ts ++ [']']).length =
        f + ts.length + 5 := by
      refine ⟨(stringifyTask t ++ stringifyRest ts ++ [']']).length - (ts.length + 5), ?_⟩
      simp only [List.length_append, List.length_singleton]
      omega
    have h3 := parseElems_tasks ts t [] [] (f + 1)
    rw [show f + 1 + ts.length + 5 = f + ts.length + 5 + 1 from by omega] at h3
    have hd : ∃ X, stringifyTask t = '\x7b' :: X := ⟨_, rfl⟩
    obtain ⟨X, hX⟩ := hd
    simp only [parse, stringifyTasks, List.length_cons, parseValue]
    rw [skipWs_cons_of_not _ _ (by decide)]
    simp only [show ('[' = '"') = False from by decide, if_false, if_true]
    rw [hf]
    rw [hX] at h3 ⊢
    simp only [List.cons_append]
    rw [skipWs_cons_of_not _ _ (by decide)]
    simp only [show ('\x7b' = ']') = False from by decide, if_false]
    simp only [List.cons_append, List.append_assoc, List.singleton_append, List.nil_append] at h3 ⊢
    rw [h3]
    simp [skipWs]

end JSON


theorem createItemDOM_task (H : Host) (t : Task) (done : Bool) (s : State) :
    createItemDOM H (some (Json.str t.text)) (some (Json.str t.time)) done s =
      s.append done [Li.ofTask t] := by
  by_cases h : t.time = "" <;>
    simp [createItemDOM, toTextContent, toStr, truthy, State.append, Li.ofTask, h]

theorem getProp_text (t : Task) : getProp t.toJson "text" = some (some (Json.str t.text)) := by
  simp [getProp, Task.toJson, lookupMember]

theorem getProp_time (t : Task) : getProp t.toJson "time" = some (some (Json.str t.time)) := by
  simp [getProp, Task.toJson, lookupMember]

theorem State.append_append (s : State) (done : Bool) (a b : List Li) :
    (s.append done a).append done b = s.append done (a ++ b) := by
  cases done <;> simp [State.append]

/-- The `forEach` over the parsed form of stored records appends their
items. -/
theorem loadEach_tasks (H : Host) (done : Bool) (ts : List Task) (s : State) :
    loadEach H done (ts.map Task.toJson) s = (s.append done (ts.map Li.ofTask), none) := by
  induction ts generalizing s with
  | nil => cases done <;> simp [loadEach, State.append]
  | cons t ts ih =>
    simp only [List.map_cons, loadEach, getProp_text, getProp_time, createItemDOM_task, ih,
      State.append_append, List.singleton_append]

theorem parseStored_tasks (H : Host) (ts : List Task) :
    parseStored H (some (JSON.stringifyTasks ts)) = some (Json.arr (ts.map Task.toJson)) := by
  simp [parseStored, JSON.parse_stringifyTasks, truthy]

theorem parseStored_none (H : Host) : parseStored H none = some (Json.arr []) := by
  have : JSON.parse "null" = some Json.null := rfl
  simp [parseStored, this, truthy]

theorem parseStored_malformed (H : Host) (t : String) (h : JSON.parse t = none) :
    parseStored H (some t) = none := by
  simp [parseStored, h]

theorem Li.toTask_eq (li : Li) : li.toTask = ⟨li.text, li.alarmTime.getD ""⟩ := by
  obtain ⟨tx, al, rg, md, mu, ls⟩ := li
  cases al with
  | none => rfl
  | some t => by_cases h : t = "" <;> simp [Li.toTask, Li.time, h]

theorem Li.ofTask_toTask (li : Li) :
    Li.ofTask li.toTask =
      ⟨li.text, if li.alarmTime = some "" then none else li.alarmTime,
        false, false, false, []⟩ := by
  obtain ⟨tx, al, rg, md, mu, ls⟩ := li
  cases al with
  | none => rfl
  | some t => by_cases h : t = "" <;> simp [Li.ofTask, Li.toTask, Li.time, h]

/-- C3. `saveTasks`, then `loadTasks` into empty lists. Each stored entry is
the serialized sequence of the pairs `{text, time}` of its list, where `time`
is the item's label, or `""` when the item has none. The reload raises
nothing, and each list then holds, in the same order and in its own list, one
fresh item for every saved item, with the same text and the same label (a
label that was absent, or the empty attribute, is read back as absent). So
the two sequences of `{text, time}` pairs after the reload are the two
sequences before the save. -/
theorem save_load_roundtrip (H : Host) (s : State) :
    (saveTasks s).activeTasks =
      some (JSON.stringifyTasks
        (s.todoList.map (fun li => ⟨li.text, li.alarmTime.getD ""⟩))) ∧
    (saveTasks s).completedTasks =
      some (JSON.stringifyTasks
        (s.completedList.map (fun li => ⟨li.text, li.alarmTime.getD ""⟩))) ∧
    loadTasks H { saveTasks s with todoList := [], completedList := [] } =
      ({ saveTasks s with
          todoList := s.todoList.map (fun li =>
            ⟨li.text, if li.alarmTime = some "" then none else li.alarmTime,
              false, false, false, []⟩)
          completedList := s.completedList.map (fun li =>
            ⟨li.text, if li.alarmTime = some "" then none else li.alarmTime,
              false, false, false, []⟩) }, none) ∧
    (loadTasks H { saveTasks s with todoList := [], completedList := [] }).1.todoList.map
        (fun li => (li.text, li.alarmTime.getD "")) =
      s.todoList.map (fun li => (li.text, li.alarmTime.getD "")) ∧
    (loadTasks H { saveTasks s with todoList := [], completedList := [] }).1.completedList.map
        (fun li => (li.text, li.alarmTime.getD "")) =
      s.completedList.map (fun li => (li.text, li.alarmTime.getD "")) := by
  have hload : loadTasks H { saveTasks s with todoList := [], completedList := [] } =
      ({ saveTasks s with
          todoList := s.todoList.map (fun li =>
            ⟨li.text, if li.alarmTime = some "" then none else li.alarmTime,
              false, false, false, []⟩)
          completedList := s.completedList.map (fun li =>
            ⟨li.text, if li.alarmTime = some "" then none else li.alarmTime,
              false, false, false, []⟩) }, none) := by
    simp only [loadTasks, saveTasks, parseStored_tasks, forEachTask, loadEach_tasks,
      State.append]
    simp [Function.comp_def, Li.ofTask_toTask]
  have hpair : ∀ l : List Li,
      (l.map (fun li : Li =>
        (⟨li.text, if li.alarmTime = some "" then none else li.alarmTime,
          false, false, false, []⟩ : Li))).map (fun li => (li.text, li.alarmTime.getD "")) =
      l.map (fun li => (li.text, li.alarmTime.getD "")) := by
    intro l
    rw [List.map_map]
    apply List.map_congr_left
    intro li _
    by_cases h : li.alarmTime = some "" <;> simp [h]
  have hrec : Li.toTask = fun li => ⟨li.text, li.alarmTime.getD ""⟩ := funext Li.toTask_eq
  refine ⟨?_, ?_, hload, ?_, ?_⟩
  · simp only [saveTasks, hrec]
  · simp only [saveTasks, hrec]
  · rw [hload]; exact hpair _
  · rw [hload]; exact hpair _

theorem forEachTask_not_array (H : Host) (done : Bool) (v : Json) (s : State)
    (h : v.isArr = false) : forEachTask H done v s = (s, some JsError.typeError) := by
  cases v <;> simp_all [forEachTask, Json.isArr]

theorem parseStored_truthy (H : Host) (t : String) (v : Json) (h : JSON.parse t = some v)
    (ht : truthy H (some v) = true) : parseStored H (some t) = some v := by
  simp [parseStored, h, ht]

/-- C8 (amended). What `loadTasks` does with the two stored entries. An
absent entry is read as the empty sequence, and the other entry, when it is a
serialized sequence of records, is still loaded. An entry that cannot be used
is not defaulted: when either entry is present and is not valid JSON,
`loadTasks` raises before anything is loaded; when the Active entry is valid
JSON whose value is truthy and not an array, `loadTasks` raises with nothing
loaded; when the Completed entry is such a value, `loadTasks` raises. -/
theorem loadTasks_absent_or_unusable (H : Host) (s : State) :
    (s.activeTasks = none → s.completedTasks = none → loadTasks H s = (s, none)) ∧
    (∀ ts : List Task, s.activeTasks = none →
      s.completedTasks = some (JSON.stringifyTasks ts) →
      loadTasks H s = ({ s with completedList := s.completedList ++ ts.map Li.ofTask }, none)) ∧
    (∀ ts : List Task, s.completedTasks = none →
      s.activeTasks = some (JSON.stringifyTasks ts) →
      loadTasks H s = ({ s with todoList := s.todoList ++ ts.map Li.ofTask }, none)) ∧
    (∀ t : String, s.activeTasks = some t → JSON.parse t = none →
      loadTasks H s = (s, some JsError.parseError)) ∧
    (∀ t : String, s.completedTasks = some t → JSON.parse t = none →
      loadTasks H s = (s, some JsError.parseError)) ∧
    (∀ (t : String) (v : Json), s.activeTasks = some t → JSON.parse t = some v →
      truthy H (some v) = true → v.isArr = false →
      ∃ e, loadTasks H s = (s, some e)) ∧
    (∀ (t : String) (v : Json), s.completedTasks = some t → JSON.parse t = some v →
      truthy H (some v) = true → v.isArr = false →
      ∃ e, (loadTasks H s).2 = some e) := by
  refine ⟨?_, ?_, ?_, ?_, ?_, ?_, ?_⟩
  · intro ha hc
    simp [loadTasks, ha, hc, parseStored_none, forEachTask, loadEach]
  · intro ts ha hc
    simp only [loadTasks, ha, hc, parseStored_none, parseStored_tasks, forEachTask, loadEach,
      loadEach_tasks, State.append]
    simp
  · intro ts hc ha
    simp only [loadTasks, ha, hc, parseStored_none, parseStored_tasks, forEachTask, loadEach,
      loadEach_tasks, State.append]
    simp
  · intro t ha hp
    simp [loadTasks, ha, parseStored_malformed H t hp]
  · intro t hc hp
    cases h : parseStored H s.activeTasks with
    | none => simp [loadTasks, h]
    | some a => simp [loadTasks, h, hc, parseStored_malformed H t hp]
  · intro t v ha hp ht hv
    cases h : parseStored H s.completedTasks with
    | none =>
      exact ⟨JsError.parseError, by simp [loadTasks, ha, parseStored_truthy H t v hp ht, h]⟩
    | some c =>
      exact ⟨JsError.typeError, by
        simp [loadTasks, ha, parseStored_truthy H t v hp ht, h, forEachTask_not_array H _ v s hv]⟩
  · intro t v hc hp ht hv
    cases h : parseStored H s.activeTasks with
    | none => exact ⟨JsError.parseError, by simp [loadTasks, h]⟩
    | some a =>
      cases h2 : forEachTask H false a s with
      | mk s1 e1 =>
        cases e1 with
        | some e => exact ⟨e, by simp [loadTasks, h, hc, parseStored_truthy H t v hp ht, h2]⟩
        | none =>
          exact ⟨JsError.typeError, by
            simp [loadTasks, h, hc, parseStored_truthy H t v hp ht, h2,
              forEachTask_not_array H _ v s1 hv]⟩

/-- Witness for C8: the Active entry is absent and the Completed entry is
the serialized record of `c`. -/
theorem loadTasks_absent_or_unusable_witness :
    loadTasks sampleHost (State.initial none (some (JSON.stringifyTasks [⟨"c", ""⟩]))) =
      ({ State.initial none (some (JSON.stringifyTasks [⟨"c", ""⟩])) with
          completedList := (State.initial none (some (JSON.stringifyTasks [⟨"c", ""⟩]))).completedList
            ++ [(⟨"c", ""⟩ : Task)].map Li.ofTask }, none) :=
  (loadTasks_absent_or_unusable sampleHost
    (State.initial none (some (JSON.stringifyTasks [⟨"c", ""⟩])))).2.1 [⟨"c", ""⟩] rfl rfl

/-- C8 (counterexample to the claim as stated). First page: the stored Active
entry is cut off before its closing bracket and the Completed entry is a
well-formed array of one record. `loadTasks` raises and loads nothing: the
Completed list stays empty. Second page: the stored Active entry is one record
that is not inside an array; `loadTasks` raises as well. -/
theorem loadTasks_raises :
    loadTasks sampleHost (State.initial
        (some "[\x7b\"text\":\"a\",\"time\":\"\"\x7d")
        (some "[\x7b\"text\":\"b\",\"time\":\"\"\x7d]")) =
      (State.initial
        (some "[\x7b\"text\":\"a\",\"time\":\"\"\x7d")
        (some "[\x7b\"text\":\"b\",\"time\":\"\"\x7d]"), some JsError.parseError) ∧
    loadTasks sampleHost (State.initial (some "\x7b\"text\":\"a\",\"time\":\"\"\x7d") none) =
      (State.initial (some "\x7b\"text\":\"a\",\"time\":\"\"\x7d") none,
        some JsError.typeError) := by
  decide

end VoiceToDo
